import Mathlib

/-!
Verification of the `flet_object_inspector` module
(`src/flet_object_inspector/flet_object_inspector.py`).

The module walks an arbitrary Python value — Flet framework widgets, lists,
dicts and scalars — and renders it to an indented text form (`inspect`) or a
JSON-serialisable structure (`to_dict`, `flet_to_json`).

The embedding models a Python runtime value as the inductive type `Value`:
  * `Value.obj cls mod attrs` is an object of class `cls` defined in module
    `mod`, carrying the attribute bindings `attrs` (Python attribute names are
    unique per object; lookup takes the first binding).  A widget is an
    object whose module name starts with `"flet"`.
  * `Value.list`, `Value.dict` are the builtin containers (dict keys are
    modelled as strings, which is the shape the inspector prints).
  * `Value.none`, `Value.str`, `Value.int`, `Value.bool` are the scalars the
    inspector distinguishes (floats behave exactly like ints in every code
    path modelled here and are not a separate constructor).

Each definition mirrors one Python function or method of the source file;
the inspector's mutable state (`current_depth`) is threaded explicitly.
-/

inductive Value where
  | none : Value
  | str : String → Value
  | int : Int → Value
  | bool : Bool → Value
  | list : List Value → Value
  | dict : List (String × Value) → Value
  | obj : String → String → List (String × Value) → Value

/-- Python's `str.startswith`, character by character. -/
def pyStartsWith (s pre : String) : Bool := pre.data.isPrefixOf s.data

/-- The widget test of the source, `obj.__class__.__module__.startswith('flet')`
(guarded by `hasattr(obj, '__class__')`, which holds of every Python value).
Builtin containers and scalars live in module `builtins`, so only `Value.obj`
can pass the test. -/
def isFlet : Value → Bool
  | Value.obj _ mod _ => pyStartsWith mod "flet"
  | _ => false

/-- Python `obj.__class__.__name__`; only consulted on `Value.obj` values. -/
def typeName : Value → String
  | Value.obj cls _ _ => cls
  | _ => ""

/-- First-match association lookup in an attribute list (Python attribute
names are unique per object, so first-match agrees with Python). -/
def lookupAttr : List (String × Value) → String → Option Value
  | [], _ => Option.none
  | (k, v) :: rest, name => if k = name then Option.some v else lookupAttr rest name

/-- Python `hasattr(obj, name)` / `getattr(obj, name)` over the embedding:
`Option.some` is a present attribute.  The inspector only ever looks up its
allowlisted attribute names, and it does so only on widget objects, so
builtin values carry none of those attributes. -/
def getAttr : Value → String → Option Value
  | Value.obj _ _ attrs, name => lookupAttr attrs name
  | _, _ => Option.none

/-- Python truthiness (`if value:`) for the embedded values. -/
def pyTruthy : Value → Bool
  | Value.none => false
  | Value.str s => decide (s ≠ "")
  | Value.int n => decide (n ≠ 0)
  | Value.bool b => b
  | Value.list xs => !xs.isEmpty
  | Value.dict es => !es.isEmpty
  | Value.obj _ _ _ => true

/-- Python `value is not None`. -/
def isNotNone : Value → Bool
  | Value.none => false
  | _ => true

/-- The guard `value is not None and value != ""` used by the property
extraction loops.  (In Python only the empty string compares equal to `""`
among the modelled values.) -/
def nonNullNonEmptyStr : Value → Bool
  | Value.none => false
  | Value.str s => decide (s ≠ "")
  | _ => true

/-- Python `repr`, as the inspector prints scalars and containers.  A string
is quoted with single quotes (escaping inside the string is not needed by
any claim and is elided), and an object's default form is modelled as
`<module.Class object>` — the memory address printed by CPython is dropped,
which is what makes `repr` deterministic in the model. -/
def pyRepr : Value → String
  | Value.none => "None"
  | Value.bool true => "True"
  | Value.bool false => "False"
  | Value.int n => toString n
  | Value.str s => "'" ++ s ++ "'"
  | Value.list xs =>
      "[" ++ String.intercalate ", " (xs.attach.map fun x => pyRepr x.1) ++ "]"
  | Value.dict es =>
      "\x7b" ++
        String.intercalate ", "
          (es.attach.map fun kv => "'" ++ kv.1.1 ++ "': " ++ pyRepr kv.1.2) ++
      "\x7d"
  | Value.obj cls mod _ => "<" ++ mod ++ "." ++ cls ++ " object>"
decreasing_by
  all_goals simp_wf
  · have h1 := List.sizeOf_lt_of_mem x.2
    omega
  · have h1 := List.sizeOf_lt_of_mem kv.2
    have h2 : sizeOf kv.1.2 ≤ sizeOf kv.1 := by
      obtain ⟨a, b⟩ := kv.1
      simp
    omega

/-- Python `str` (used by f-strings): a string prints bare, everything else
prints as its `repr` (for the modelled values `str` and `repr` agree off
strings). -/
def pyStr : Value → String
  | Value.str s => s
  | v => pyRepr v

/-- The property allowlist `common_props` of `_get_control_properties` and
`to_dict` (both methods spell out the same list). -/
def common_props : List String :=
  ["text", "value", "width", "height", "bgcolor", "color",
   "visible", "disabled", "tooltip", "key", "data", "route",
   "title", "label", "hint_text", "padding", "margin"]

/-- The special-slot allowlist `special_attrs` of `_get_special_children`. -/
def special_attrs : List String :=
  ["appbar", "drawer", "end_drawer", "floating_action_button",
   "bottom_navigation_bar", "navigation_bar"]

/-- The ordinary-children allowlist `child_attrs` of `_get_children`. -/
def child_attrs : List String :=
  ["controls", "content", "actions", "tabs", "items",
   "leading", "title", "trailing", "options"]

/-- The truncation step of `_get_control_properties`: a string longer than
30 characters becomes its first 30 characters plus `"..."`
(`value = f"{value[:30]}..."`); every other value is kept as is. -/
def truncateProp : Value → Value
  | Value.str s => if s.length > 30 then Value.str (s.take 30 ++ "...") else Value.str s
  | v => v

/-- The `props` dict built by the loop of `_get_control_properties`: for each
allowlisted name in order, keep a present attribute whose value is neither
`None` nor `""`, truncated per `truncateProp`. -/
def controlPropsList (obj : Value) : List (String × Value) :=
  common_props.filterMap fun prop =>
    match getAttr obj prop with
    | Option.some value =>
        if nonNullNonEmptyStr value then Option.some (prop, truncateProp value)
        else Option.none
    | Option.none => Option.none

/-- One formatted property, `f"{key}='{value}'"` for a string value and
`f"{key}={value}"` otherwise. -/
def formatProp (kv : String × Value) : String :=
  match kv.2 with
  | Value.str s => kv.1 ++ "='" ++ s ++ "'"
  | v => kv.1 ++ "=" ++ pyStr v

/-- `_get_control_properties`: the formatted `(k=v, ...)` string, or `""`
when no allowlisted property is present. -/
def _get_control_properties (obj : Value) : String :=
  match controlPropsList obj with
  | [] => ""
  | props => "(" ++ String.intercalate ", " (props.map formatProp) ++ ")"

/-- `_get_special_children`: the special-slot attributes, in allowlist order,
that are present, not `None` and themselves Flet widgets
(`hasattr(value, '__class__')` holds of every Python value, so the module
check decides). -/
def _get_special_children (obj : Value) : List (String × Value) :=
  special_attrs.filterMap fun attr =>
    match getAttr obj attr with
    | Option.some value =>
        if isNotNone value && isFlet value then Option.some (attr, value)
        else Option.none
    | Option.none => Option.none

/-- The per-candidate test of the `_get_children` loop: a present value that
is not `None` is returned when it is a non-empty list, or when it is not a
`str`/`int`/`float`/`bool` scalar and its class's module starts with `flet`
(builtin containers fail the module check and are skipped). -/
def childCandidate : Value → Option Value
  | Value.none => Option.none
  | Value.list l => if l.length > 0 then Option.some (Value.list l) else Option.none
  | Value.str _ => Option.none
  | Value.int _ => Option.none
  | Value.bool _ => Option.none
  | v => if isFlet v then Option.some v else Option.none

/-- The `for attr in child_attrs:` loop of `_get_children`: return at the
first candidate that passes `childCandidate`, otherwise continue down the
list. -/
def findChild (obj : Value) : List String → Option Value
  | [] => Option.none
  | attr :: rest =>
      match getAttr obj attr with
      | Option.some value =>
          match childCandidate value with
          | Option.some r => Option.some r
          | Option.none => findChild obj rest
      | Option.none => findChild obj rest

/-- `_get_children`: the first candidate attribute, in `child_attrs` order,
whose value passes `childCandidate`; `Option.none` models the `return None`
fall-through. -/
def _get_children (obj : Value) : Option Value :=
  findChild obj child_attrs

/-- The inspector's configuration and state: `FletInspector.__init__` stores
`indent_size` and `max_depth` and sets `current_depth := 0`. -/
structure FletInspector where
  indent_size : Int
  max_depth : Int
  current_depth : Int

/-- `FletInspector.__init__` (Python defaults `indent_size=2, max_depth=10`):
the arguments are stored unchecked — no validation of any kind is performed. -/
def FletInspector.init (indent_size : Int) (max_depth : Int) : FletInspector :=
  { indent_size := indent_size, max_depth := max_depth, current_depth := 0 }

/-- A value found by association lookup is a strict subterm of the attribute
list. -/
theorem lookupAttr_sizeOf {attrs : List (String × Value)} {name : String} {v : Value}
    (h : lookupAttr attrs name = Option.some v) : sizeOf v < sizeOf attrs := by
  induction attrs with
  | nil => simp [lookupAttr] at h
  | cons kv rest ih =>
      obtain ⟨k, w⟩ := kv
      by_cases hk : k = name
      · simp only [lookupAttr, if_pos hk, Option.some.injEq] at h
        subst h
        simp
        omega
      · simp only [lookupAttr, if_neg hk] at h
        have := ih h
        simp
        omega

/-- A value found by attribute lookup is a strict subterm of the object. -/
theorem getAttr_sizeOf {obj : Value} {name : String} {v : Value}
    (h : getAttr obj name = Option.some v) : sizeOf v < sizeOf obj := by
  cases obj with
  | obj cls mod attrs =>
      have := lookupAttr_sizeOf (h : lookupAttr attrs name = Option.some v)
      simp
      omega
  | none => simp [getAttr] at h
  | str s => simp [getAttr] at h
  | int n => simp [getAttr] at h
  | bool b => simp [getAttr] at h
  | list xs => simp [getAttr] at h
  | dict es => simp [getAttr] at h

/-- `childCandidate` returns the candidate value itself when it succeeds. -/
theorem childCandidate_some {v c : Value} (h : childCandidate v = Option.some c) :
    c = v := by
  cases v with
  | none => simp [childCandidate] at h
  | str s => simp [childCandidate] at h
  | int n => simp [childCandidate] at h
  | bool b => simp [childCandidate] at h
  | list l =>
      simp only [childCandidate] at h
      split at h
      · simp only [Option.some.injEq] at h
        exact h.symm
      · simp at h
  | dict es =>
      simp only [childCandidate] at h
      split at h
      · simp only [Option.some.injEq] at h
        exact h.symm
      · simp at h
  | obj cls mod attrs =>
      simp only [childCandidate] at h
      split at h
      · simp only [Option.some.injEq] at h
        exact h.symm
      · simp at h

/-- Inversion for the `_get_children` loop: a successful search found some
attribute of the list whose value is the result itself, and that value
passes the candidate test. -/
theorem findChild_some {obj c : Value} {attrs : List String}
    (h : findChild obj attrs = Option.some c) :
    ∃ attr ∈ attrs,
      getAttr obj attr = Option.some c ∧ childCandidate c = Option.some c := by
  induction attrs with
  | nil => simp [findChild] at h
  | cons a rest ih =>
      simp only [findChild] at h
      cases hga : getAttr obj a with
      | none =>
          simp only [hga] at h
          obtain ⟨attr, hmem, h1, h2⟩ := ih h
          exact ⟨attr, by simp [hmem], h1, h2⟩
      | some v =>
          simp only [hga] at h
          cases hcc : childCandidate v with
          | none =>
              simp only [hcc] at h
              obtain ⟨attr, hmem, h1, h2⟩ := ih h
              exact ⟨attr, by simp [hmem], h1, h2⟩
          | some r =>
              simp only [hcc, Option.some.injEq] at h
              subst h
              have hcv := childCandidate_some hcc
              subst hcv
              exact ⟨a, by simp, hga, hcc⟩

/-- Inversion for `_get_children` itself. -/
theorem get_children_some {obj c : Value} (h : _get_children obj = Option.some c) :
    ∃ attr ∈ child_attrs,
      getAttr obj attr = Option.some c ∧ childCandidate c = Option.some c :=
  findChild_some (h : findChild obj child_attrs = Option.some c)

/-- The resolved children value is a strict subterm of the widget, which is
what bounds the recursion of `to_dict`. -/
theorem get_children_sizeOf {obj c : Value} (h : _get_children obj = Option.some c) :
    sizeOf c < sizeOf obj := by
  obtain ⟨attr, _, h1, _⟩ := get_children_some h
  exact getAttr_sizeOf h1

/-- The indexed child/element loop shared by the list branch and the widget
children branch of `_inspect_recursive`: each already-rendered row is
emitted as `{indent}  [{i}] {row}`, a comma after every row but the last,
then a newline. -/
def joinNumbered (indent : String) (rs : List String) : String :=
  String.join (rs.enum.map fun p =>
    indent ++ "  [" ++ toString p.1 ++ "] " ++ p.2 ++
      (if p.1 < rs.length - 1 then "," else "") ++ "\n")

/-- The dict-entry loop of `_inspect_recursive`: each entry is emitted as
`{indent}  '{key}': {row}`, a comma after every entry but the last, then a
newline. -/
def joinKeyed (indent : String) (rs : List (String × String)) : String :=
  String.join (rs.enum.map fun p =>
    indent ++ "  '" ++ p.2.1 ++ "': " ++ p.2.2 ++
      (if p.1 < rs.length - 1 then "," else "") ++ "\n")

/-- `_inspect_recursive` with `_inspect_flet_control` inlined (the source
factors the widget branch into a helper method invoked with the same
`depth`; the helper is inlined here so that the recursion is a single
function of `depth`, which is exactly the quantity whose growth the
`depth > self.max_depth` guard bounds). -/
def _inspect_recursive (self : FletInspector) (obj : Value) (show_properties : Bool)
    (depth : Nat) : String :=
  if h : (depth : Int) > self.max_depth then "... (max depth reached)"
  else
    let indent : String := String.mk (List.replicate ((depth : Int) * self.indent_size).toNat ' ')
    if isFlet obj then
      let class_name := typeName obj
      let result := class_name
      let result :=
        if show_properties then
          let props := _get_control_properties obj
          if props ≠ "" then result ++ " " ++ props else result
        else result
      let children := _get_children obj
      let special_children := _get_special_children obj
      if (match children with
          | Option.some c => pyTruthy c
          | Option.none => false) || !special_children.isEmpty then
        let special_part :=
          String.join (special_children.map fun nc =>
            indent ++ "  " ++ nc.1 ++ ": " ++
              _inspect_recursive self nc.2 show_properties (depth + 1) ++ "\n")
        let children_part :=
          match children with
          | Option.some c =>
              if pyTruthy c then
                match c with
                | Value.list cs =>
                    joinNumbered indent
                      (cs.map fun child =>
                        _inspect_recursive self child show_properties (depth + 1))
                | c2 =>
                    indent ++ "  " ++
                      _inspect_recursive self c2 show_properties (depth + 1) ++ "\n"
              else ""
          | Option.none => ""
        result ++ " \x7b\n" ++ special_part ++ children_part ++ indent ++ "\x7d"
      else result
    else
      match obj with
      | Value.list [] => "[]"
      | Value.list items =>
          "[\n" ++
            joinNumbered indent
              (items.map fun item =>
                _inspect_recursive self item show_properties (depth + 1)) ++
            indent ++ "]"
      | Value.dict [] => "\x7b\x7d"
      | Value.dict es =>
          "\x7b\n" ++
            joinKeyed indent
              (es.map fun kv =>
                (kv.1, _inspect_recursive self kv.2 show_properties (depth + 1))) ++
            indent ++ "\x7d"
      | v => pyRepr v
termination_by (self.max_depth + 1 - (depth : Int)).toNat
decreasing_by
  all_goals
    simp_wf
    omega

/-- The `inspect` method: resets `current_depth` to 0 (the one mutation of
inspector state in the source) and renders from depth 0.  The model returns
the rendered string together with the post-call inspector state. -/
def inspect (self : FletInspector) (obj : Value) (show_properties : Bool) :
    String × FletInspector :=
  let self2 := { self with current_depth := 0 }
  (_inspect_recursive self2 obj show_properties 0, self2)

/-- The property loop of `to_dict`: the same allowlist and presence test as
`_get_control_properties`, but values are stored raw — no truncation. -/
def toDictProps (obj : Value) : List (String × Value) :=
  common_props.filterMap fun prop =>
    match getAttr obj prop with
    | Option.some value =>
        if nonNullNonEmptyStr value then Option.some (prop, value) else Option.none
    | Option.none => Option.none

/-- The `to_dict` method: a Flet widget becomes a dict with the keys `type`,
`properties` and `children` (the latter initialised to `None` and overwritten
only when `_get_children` finds children); lists and dicts convert
elementwise; everything else is returned unchanged.  The method reads no
inspector state and applies no depth bound. -/
def to_dict (self : FletInspector) (obj : Value) : Value :=
  match obj with
  | Value.obj cls mod attrs =>
      if isFlet (Value.obj cls mod attrs) then
        let children_val : Value :=
          match hgc : _get_children (Value.obj cls mod attrs) with
          | Option.some children =>
              if pyTruthy children then
                match hc : children with
                | Value.list cs =>
                    Value.list (cs.attach.map fun x => to_dict self x.1)
                | c2 => to_dict self c2
              else Value.none
          | Option.none => Value.none
        Value.dict
          [("type", Value.str cls),
           ("properties", Value.dict (toDictProps (Value.obj cls mod attrs))),
           ("children", children_val)]
      else Value.obj cls mod attrs
  | Value.list items => Value.list (items.attach.map fun x => to_dict self x.1)
  | Value.dict es => Value.dict (es.attach.map fun kv => (kv.1.1, to_dict self kv.1.2))
  | v => v
termination_by sizeOf obj
decreasing_by
  · have h1 := get_children_sizeOf hgc
    have h2 := List.sizeOf_lt_of_mem x.2
    simp_wf
    simp at h1
    omega
  · have h1 := get_children_sizeOf hgc
    simp_wf
    simp at h1
    omega
  · have h2 := List.sizeOf_lt_of_mem x.2
    simp_wf
    omega
  · have h2 := List.sizeOf_lt_of_mem kv.2
    have h3 : sizeOf kv.1.2 ≤ sizeOf kv.1 := by
      obtain ⟨a, b⟩ := kv.1
      simp
    simp_wf
    omega

theorem pyRepr_list (xs : List Value) :
    pyRepr (Value.list xs) =
      "[" ++ String.intercalate ", " (xs.map pyRepr) ++ "]" := by
  rw [pyRepr]
  simp [List.attach_map_val]

theorem pyRepr_dict (es : List (String × Value)) :
    pyRepr (Value.dict es) =
      "\x7b" ++
        String.intercalate ", "
          (es.map fun kv => "'" ++ kv.1 ++ "': " ++ pyRepr kv.2) ++
      "\x7d" := by
  rw [pyRepr]
  exact congrArg (fun l => "\x7b" ++ String.intercalate ", " l ++ "\x7d")
    (List.attach_map_val es fun kv => "'" ++ kv.1 ++ "': " ++ pyRepr kv.2)

theorem pyRepr_none : pyRepr Value.none = "None" := by
  rw [pyRepr]

theorem pyRepr_int (n : Int) : pyRepr (Value.int n) = toString n := by
  rw [pyRepr]

theorem pyRepr_str (s : String) : pyRepr (Value.str s) = "'" ++ s ++ "'" := by
  rw [pyRepr]

theorem pyRepr_bool (b : Bool) :
    pyRepr (Value.bool b) = if b then "True" else "False" := by
  cases b <;> rw [pyRepr] <;> rfl

theorem pyRepr_obj (cls mod : String) (attrs : List (String × Value)) :
    pyRepr (Value.obj cls mod attrs) = "<" ++ mod ++ "." ++ cls ++ " object>" := by
  rw [pyRepr]

/-- Unfolding `to_dict` on a list. -/
theorem to_dict_list (self : FletInspector) (items : List Value) :
    to_dict self (Value.list items) = Value.list (items.map (to_dict self)) := by
  rw [to_dict]
  simp [List.attach_map_val]

/-- Unfolding `to_dict` on a dict. -/
theorem to_dict_dict (self : FletInspector) (es : List (String × Value)) :
    to_dict self (Value.dict es) =
      Value.dict (es.map fun kv => (kv.1, to_dict self kv.2)) := by
  rw [to_dict]
  exact congrArg Value.dict (List.attach_map_val es fun kv => (kv.1, to_dict self kv.2))

theorem to_dict_none (self : FletInspector) : to_dict self Value.none = Value.none := by
  rw [to_dict]
  all_goals intros
  all_goals simp_all

theorem to_dict_str (self : FletInspector) (s : String) :
    to_dict self (Value.str s) = Value.str s := by
  rw [to_dict]
  all_goals intros
  all_goals simp_all

theorem to_dict_int (self : FletInspector) (n : Int) :
    to_dict self (Value.int n) = Value.int n := by
  rw [to_dict]
  all_goals intros
  all_goals simp_all

theorem to_dict_bool (self : FletInspector) (b : Bool) :
    to_dict self (Value.bool b) = Value.bool b := by
  rw [to_dict]
  all_goals intros
  all_goals simp_all

/-- Unfolding `to_dict` on a non-widget object: returned unchanged. -/
theorem to_dict_nonflet (self : FletInspector) (cls mod : String)
    (attrs : List (String × Value)) (h : pyStartsWith mod "flet" = false) :
    to_dict self (Value.obj cls mod attrs) = Value.obj cls mod attrs := by
  rw [to_dict]
  simp [isFlet, h]

/-- Unfolding `to_dict` on a Flet widget: a dict with exactly the keys
`type`, `properties` and `children`, the last filled from `_get_children`. -/
theorem to_dict_flet (self : FletInspector) (cls mod : String)
    (attrs : List (String × Value)) (h : pyStartsWith mod "flet" = true) :
    to_dict self (Value.obj cls mod attrs) =
      Value.dict
        [("type", Value.str cls),
         ("properties", Value.dict (toDictProps (Value.obj cls mod attrs))),
         ("children",
           match _get_children (Value.obj cls mod attrs) with
           | Option.some children =>
               if pyTruthy children then
                 match children with
                 | Value.list cs => Value.list (cs.map (to_dict self))
                 | c2 => to_dict self c2
               else Value.none
           | Option.none => Value.none)] := by
  have hf : isFlet (Value.obj cls mod attrs) = true := by simp [isFlet, h]
  rw [to_dict]
  simp only [hf, if_true]
  split
  next children heq =>
    conv_rhs => rw [heq]
    cases children <;> simp [pyTruthy, List.attach_map_val]
  next heq =>
    conv_rhs => rw [heq]

/-- The depth guard of `_inspect_recursive`: any call past `max_depth`
returns the placeholder without looking at the value. -/
theorem inspect_rec_cutoff (self : FletInspector) (obj : Value) (sp : Bool)
    (depth : Nat) (h : (depth : Int) > self.max_depth) :
    _inspect_recursive self obj sp depth = "... (max depth reached)" := by
  rw [_inspect_recursive]
  rw [dif_pos h]

/-- Bool `all` over an attached list agrees with `all` over the list. -/
theorem attach_all_fst {α : Type} (l : List α) (f : α → Bool) :
    (l.attach.all fun x => f x.1) = l.all f := by
  cases hb : l.all f with
  | true =>
      simp only [List.all_eq_true] at hb ⊢
      intro x _
      exact hb x.1 x.2
  | false =>
      cases ha : (l.attach.all fun x => f x.1) with
      | false => rfl
      | true =>
          exfalso
          simp only [List.all_eq_true] at ha
          have hall : l.all f = true := by
            simp only [List.all_eq_true]
            intro x hx
            exact ha ⟨x, hx⟩ (List.mem_attach l ⟨x, hx⟩)
          rw [hb] at hall
          cases hall

/-- Bool `any` over an attached list agrees with `any` over the list. -/
theorem attach_any_fst {α : Type} (l : List α) (f : α → Bool) :
    (l.attach.any fun x => f x.1) = l.any f := by
  cases hb : l.any f with
  | true =>
      obtain ⟨x, hx, hfx⟩ := List.any_eq_true.mp hb
      simp only [List.any_eq_true]
      exact ⟨⟨x, hx⟩, List.mem_attach l ⟨x, hx⟩, hfx⟩
  | false =>
      cases ha : (l.attach.any fun x => f x.1) with
      | false => rfl
      | true =>
          exfalso
          obtain ⟨x, _, hfx⟩ := List.any_eq_true.mp ha
          have hany : l.any f = true := List.any_eq_true.mpr ⟨x.1, x.2, hfx⟩
          rw [hb] at hany
          cases hany

/-- JSON string escaping of one character: `json.dumps` escapes the
backslash and the double quote (control characters do not appear in any
value this development evaluates and are elided). -/
def jsonEscapeChar (c : Char) : List Char :=
  if c = Char.ofNat 92 then [Char.ofNat 92, Char.ofNat 92]
  else if c = Char.ofNat 34 then [Char.ofNat 92, Char.ofNat 34]
  else [c]

/-- JSON string escaping. -/
def jsonEscape (s : String) : String :=
  String.mk (s.data.foldr (fun c acc => jsonEscapeChar c ++ acc) [])

/-- A JSON string literal; `ensure_ascii=False` keeps non-ASCII characters
verbatim, so only the escaping above applies. -/
def jsonQuote (s : String) : String :=
  String.singleton (Char.ofNat 34) ++ jsonEscape s ++ String.singleton (Char.ofNat 34)

/-- The indentation `json.dumps` writes before an element at nesting level
`lvl` when called with `indent` spaces. -/
def jsonPad (indent lvl : Nat) : String :=
  String.mk (List.replicate (indent * lvl) ' ')

/-- Model of `json.dumps(v, indent=indent, ensure_ascii=False, default=str)`
rendering `v` at nesting level `lvl`: containers print one element per line,
one level deeper, separated by `,\n`; a value json cannot represent (an
object reference) is replaced by its default textual form `str(value)` — the
`default=str` argument — and serialised as a JSON string. -/
def dumpsVal (indent lvl : Nat) (v : Value) : String :=
  match v with
  | Value.none => "null"
  | Value.bool true => "true"
  | Value.bool false => "false"
  | Value.int n => toString n
  | Value.str s => jsonQuote s
  | Value.list [] => "[]"
  | Value.list xs =>
      "[\n" ++
        String.intercalate ",\n"
          (xs.attach.map fun x =>
            jsonPad indent (lvl + 1) ++ dumpsVal indent (lvl + 1) x.1) ++
        "\n" ++ jsonPad indent lvl ++ "]"
  | Value.dict [] => "\x7b\x7d"
  | Value.dict es =>
      "\x7b\n" ++
        String.intercalate ",\n"
          (es.attach.map fun kv =>
            jsonPad indent (lvl + 1) ++ jsonQuote kv.1.1 ++ ": " ++
              dumpsVal indent (lvl + 1) kv.1.2) ++
        "\n" ++ jsonPad indent lvl ++ "\x7d"
  | Value.obj cls mod attrs => jsonQuote (pyStr (Value.obj cls mod attrs))
termination_by sizeOf v
decreasing_by
  · have h1 := List.sizeOf_lt_of_mem x.2
    simp_wf
    omega
  · have h1 := List.sizeOf_lt_of_mem kv.2
    have h2 : sizeOf kv.1.2 ≤ sizeOf kv.1 := by
      obtain ⟨a, b⟩ := kv.1
      simp
    simp_wf
    omega

/-- The module-level `flet_to_dict`: a fresh default inspector
(`indent_size=2, max_depth=10`) and its `to_dict`. -/
def flet_to_dict (obj : Value) : Value := to_dict (FletInspector.init 2 10) obj

/-- The module-level `flet_to_json` (Python default `indent=2`): `to_dict`
on a fresh default inspector, then `json.dumps(data, indent=indent,
ensure_ascii=False, default=str)`.  (The `debug_object` helper in the source
is defined but its call is commented out, so it does not affect the
result.) -/
def flet_to_json (obj : Value) (indent : Nat) : String :=
  dumpsVal indent 0 (to_dict (FletInspector.init 2 10) obj)

/-- The module-level `inspect_flet` (Python defaults `show_properties=True,
indent_size=2, max_depth=10`) prints `inspector.inspect(obj,
show_properties)`; the model returns the printed string. -/
def inspect_flet (obj : Value) (show_properties : Bool)
    (indent_size max_depth : Int) : String :=
  (inspect (FletInspector.init indent_size max_depth) obj show_properties).1

/-- A value is JSON-compatible when it is built from dicts, lists and the
JSON scalars only — no object reference anywhere. -/
def jsonCompatibleB : Value → Bool
  | Value.none => true
  | Value.str _ => true
  | Value.int _ => true
  | Value.bool _ => true
  | Value.list xs => xs.attach.all fun x => jsonCompatibleB x.1
  | Value.dict es => es.attach.all fun kv => jsonCompatibleB kv.1.2
  | Value.obj _ _ _ => false
decreasing_by
  · have h1 := List.sizeOf_lt_of_mem x.2
    simp_wf
    omega
  · have h1 := List.sizeOf_lt_of_mem kv.2
    have h2 : sizeOf kv.1.2 ≤ sizeOf kv.1 := by
      obtain ⟨a, b⟩ := kv.1
      simp
    simp_wf
    omega

/-- Replace every object reference in a tree by its default textual form
`str(value)` — the substitution `json.dumps`'s `default=str` performs on the
fly while serialising. -/
def sanitize : Value → Value
  | Value.list xs => Value.list (xs.attach.map fun x => sanitize x.1)
  | Value.dict es => Value.dict (es.attach.map fun kv => (kv.1.1, sanitize kv.1.2))
  | Value.obj cls mod attrs => Value.str (pyStr (Value.obj cls mod attrs))
  | v => v
decreasing_by
  · have h1 := List.sizeOf_lt_of_mem x.2
    simp_wf
    omega
  · have h1 := List.sizeOf_lt_of_mem kv.2
    have h2 : sizeOf kv.1.2 ≤ sizeOf kv.1 := by
      obtain ⟨a, b⟩ := kv.1
      simp
    simp_wf
    omega

/-- Does the string `s` occur in the tree as a string leaf, a dict key or an
attribute value?  (Used to state that an output does or does not contain the
truncation placeholder.) -/
def containsStrB (s : String) : Value → Bool
  | Value.str t => decide (t = s)
  | Value.list xs => xs.attach.any fun x => containsStrB s x.1
  | Value.dict es => es.attach.any fun kv => decide (kv.1.1 = s) || containsStrB s kv.1.2
  | Value.obj _ _ attrs =>
      attrs.attach.any fun kv => decide (kv.1.1 = s) || containsStrB s kv.1.2
  | _ => false
decreasing_by
  · have h1 := List.sizeOf_lt_of_mem x.2
    simp_wf
    omega
  · have h1 := List.sizeOf_lt_of_mem kv.2
    have h2 : sizeOf kv.1.2 ≤ sizeOf kv.1 := by
      obtain ⟨a, b⟩ := kv.1
      simp
    simp_wf
    omega
  · have h1 := List.sizeOf_lt_of_mem kv.2
    have h2 : sizeOf kv.1.2 ≤ sizeOf kv.1 := by
      obtain ⟨a, b⟩ := kv.1
      simp
    simp_wf
    omega

theorem jsonCompatibleB_none : jsonCompatibleB Value.none = true := by rw [jsonCompatibleB]

theorem jsonCompatibleB_str (s : String) : jsonCompatibleB (Value.str s) = true := by
  rw [jsonCompatibleB]

theorem jsonCompatibleB_int (n : Int) : jsonCompatibleB (Value.int n) = true := by
  rw [jsonCompatibleB]

theorem jsonCompatibleB_bool (b : Bool) : jsonCompatibleB (Value.bool b) = true := by
  rw [jsonCompatibleB]

theorem jsonCompatibleB_obj (cls mod : String) (attrs : List (String × Value)) :
    jsonCompatibleB (Value.obj cls mod attrs) = false := by
  rw [jsonCompatibleB]

theorem jsonCompatibleB_list (xs : List Value) :
    jsonCompatibleB (Value.list xs) = xs.all jsonCompatibleB := by
  rw [jsonCompatibleB]
  exact attach_all_fst xs jsonCompatibleB

theorem jsonCompatibleB_dict (es : List (String × Value)) :
    jsonCompatibleB (Value.dict es) = es.all fun kv => jsonCompatibleB kv.2 := by
  rw [jsonCompatibleB]
  exact attach_all_fst es fun kv => jsonCompatibleB kv.2

theorem sanitize_none : sanitize Value.none = Value.none := by
  rw [sanitize]
  all_goals intros
  all_goals simp_all

theorem sanitize_str (s : String) : sanitize (Value.str s) = Value.str s := by
  rw [sanitize]
  all_goals intros
  all_goals simp_all

theorem sanitize_int (n : Int) : sanitize (Value.int n) = Value.int n := by
  rw [sanitize]
  all_goals intros
  all_goals simp_all

theorem sanitize_bool (b : Bool) : sanitize (Value.bool b) = Value.bool b := by
  rw [sanitize]
  all_goals intros
  all_goals simp_all

theorem sanitize_obj (cls mod : String) (attrs : List (String × Value)) :
    sanitize (Value.obj cls mod attrs) = Value.str (pyStr (Value.obj cls mod attrs)) := by
  rw [sanitize]

theorem sanitize_list (xs : List Value) :
    sanitize (Value.list xs) = Value.list (xs.map sanitize) := by
  rw [sanitize]
  exact congrArg Value.list (List.attach_map_val xs sanitize)

theorem sanitize_dict (es : List (String × Value)) :
    sanitize (Value.dict es) = Value.dict (es.map fun kv => (kv.1, sanitize kv.2)) := by
  rw [sanitize]
  exact congrArg Value.dict (List.attach_map_val es fun kv => (kv.1, sanitize kv.2))

theorem containsStrB_none (s : String) : containsStrB s Value.none = false := by
  rw [containsStrB]
  all_goals intros
  all_goals simp_all

theorem containsStrB_int (s : String) (n : Int) :
    containsStrB s (Value.int n) = false := by
  rw [containsStrB]
  all_goals intros
  all_goals simp_all

theorem containsStrB_bool (s : String) (b : Bool) :
    containsStrB s (Value.bool b) = false := by
  rw [containsStrB]
  all_goals intros
  all_goals simp_all

theorem containsStrB_str (s t : String) :
    containsStrB s (Value.str t) = decide (t = s) := by
  rw [containsStrB]

theorem containsStrB_list (s : String) (xs : List Value) :
    containsStrB s (Value.list xs) = xs.any (containsStrB s) := by
  rw [containsStrB]
  exact attach_any_fst xs (containsStrB s)

theorem containsStrB_dict (s : String) (es : List (String × Value)) :
    containsStrB s (Value.dict es) =
      es.any fun kv => decide (kv.1 = s) || containsStrB s kv.2 := by
  rw [containsStrB]
  exact attach_any_fst es fun kv => decide (kv.1 = s) || containsStrB s kv.2

theorem containsStrB_obj (s cls mod : String) (attrs : List (String × Value)) :
    containsStrB s (Value.obj cls mod attrs) =
      attrs.any fun kv => decide (kv.1 = s) || containsStrB s kv.2 := by
  rw [containsStrB]
  exact attach_any_fst attrs fun kv => decide (kv.1 = s) || containsStrB s kv.2

theorem dumpsVal_none (indent lvl : Nat) : dumpsVal indent lvl Value.none = "null" := by
  rw [dumpsVal]

theorem dumpsVal_bool (indent lvl : Nat) (b : Bool) :
    dumpsVal indent lvl (Value.bool b) = if b then "true" else "false" := by
  cases b <;> rw [dumpsVal] <;> rfl

theorem dumpsVal_int (indent lvl : Nat) (n : Int) :
    dumpsVal indent lvl (Value.int n) = toString n := by
  rw [dumpsVal]

theorem dumpsVal_str (indent lvl : Nat) (s : String) :
    dumpsVal indent lvl (Value.str s) = jsonQuote s := by
  rw [dumpsVal]

theorem dumpsVal_obj (indent lvl : Nat) (cls mod : String)
    (attrs : List (String × Value)) :
    dumpsVal indent lvl (Value.obj cls mod attrs) =
      jsonQuote (pyStr (Value.obj cls mod attrs)) := by
  rw [dumpsVal]

theorem dumpsVal_nil (indent lvl : Nat) : dumpsVal indent lvl (Value.list []) = "[]" := by
  rw [dumpsVal]

theorem dumpsVal_list (indent lvl : Nat) (x0 : Value) (xt : List Value) :
    dumpsVal indent lvl (Value.list (x0 :: xt)) =
      "[\n" ++
        String.intercalate ",\n"
          ((x0 :: xt).map fun x =>
            jsonPad indent (lvl + 1) ++ dumpsVal indent (lvl + 1) x) ++
        "\n" ++ jsonPad indent lvl ++ "]" := by
  rw [dumpsVal]
  case x => intro hx; cases hx
  rw [List.attach_map_val (x0 :: xt)
    (fun x => jsonPad indent (lvl + 1) ++ dumpsVal indent (lvl + 1) x)]

theorem dumpsVal_dict_nil (indent lvl : Nat) :
    dumpsVal indent lvl (Value.dict []) = "\x7b\x7d" := by
  rw [dumpsVal]

theorem dumpsVal_dict (indent lvl : Nat) (e0 : String × Value)
    (et : List (String × Value)) :
    dumpsVal indent lvl (Value.dict (e0 :: et)) =
      "\x7b\n" ++
        String.intercalate ",\n"
          ((e0 :: et).map fun kv =>
            jsonPad indent (lvl + 1) ++ jsonQuote kv.1 ++ ": " ++
              dumpsVal indent (lvl + 1) kv.2) ++
        "\n" ++ jsonPad indent lvl ++ "\x7d" := by
  rw [dumpsVal]
  case x => intro hx; cases hx
  rw [List.attach_map_val (e0 :: et)
    (fun kv => jsonPad indent (lvl + 1) ++ jsonQuote kv.1 ++ ": " ++
      dumpsVal indent (lvl + 1) kv.2)]

theorem sizeOf_value_pos (v : Value) : 0 < sizeOf v := by
  cases v <;> simp <;> omega

theorem sizeOf_mem_list {x : Value} {xs : List Value} (hx : x ∈ xs) :
    sizeOf x < sizeOf (Value.list xs) := by
  have h1 := List.sizeOf_lt_of_mem hx
  simp
  omega

theorem sizeOf_mem_dict {kv : String × Value} {es : List (String × Value)}
    (hkv : kv ∈ es) : sizeOf kv.2 < sizeOf (Value.dict es) := by
  have h1 := List.sizeOf_lt_of_mem hkv
  have h2 : sizeOf kv.2 ≤ sizeOf kv := by
    obtain ⟨a, b⟩ := kv
    simp
  simp
  omega

/-- After the `default=str` substitution nothing but dicts, lists and JSON
scalars remains (bounded-size induction step). -/
theorem sanitize_jsonCompatible_bounded :
    ∀ n : Nat, ∀ v : Value, sizeOf v ≤ n → jsonCompatibleB (sanitize v) = true := by
  intro n
  induction n with
  | zero =>
      intro v hv
      exact absurd hv (by have := sizeOf_value_pos v; omega)
  | succ n ih =>
      intro v hv
      cases v with
      | none => rw [sanitize_none, jsonCompatibleB_none]
      | str s => rw [sanitize_str, jsonCompatibleB_str]
      | int i => rw [sanitize_int, jsonCompatibleB_int]
      | bool b => rw [sanitize_bool, jsonCompatibleB_bool]
      | obj cls mod attrs => rw [sanitize_obj, jsonCompatibleB_str]
      | list xs =>
          rw [sanitize_list, jsonCompatibleB_list]
          simp only [List.all_eq_true]
          intro x hx
          obtain ⟨y, hy, rfl⟩ := List.mem_map.mp hx
          exact ih y (by have := sizeOf_mem_list hy; omega)
      | dict es =>
          rw [sanitize_dict, jsonCompatibleB_dict]
          simp only [List.all_eq_true]
          intro kv hkv
          obtain ⟨kv0, hkv0, rfl⟩ := List.mem_map.mp hkv
          exact ih kv0.2 (by have := sizeOf_mem_dict hkv0; omega)

/-- Sanitising a value never produces an object reference. -/
theorem sanitize_jsonCompatible (v : Value) : jsonCompatibleB (sanitize v) = true :=
  sanitize_jsonCompatible_bounded (sizeOf v) v (Nat.le_refl _)

/-- Serialising a value and serialising its sanitised form produce the same
string: `json.dumps` applies `default=str` exactly where `sanitize` does
(bounded-size induction step). -/
theorem dumps_sanitize_bounded :
    ∀ n : Nat, ∀ v : Value, sizeOf v ≤ n →
      ∀ indent lvl : Nat, dumpsVal indent lvl (sanitize v) = dumpsVal indent lvl v := by
  intro n
  induction n with
  | zero =>
      intro v hv
      exact absurd hv (by have := sizeOf_value_pos v; omega)
  | succ n ih =>
      intro v hv indent lvl
      cases v with
      | none => rw [sanitize_none]
      | str s => rw [sanitize_str]
      | int i => rw [sanitize_int]
      | bool b => rw [sanitize_bool]
      | obj cls mod attrs => rw [sanitize_obj, dumpsVal_str, dumpsVal_obj]
      | list xs =>
          cases xs with
          | nil => rw [sanitize_list]; rfl
          | cons x0 xt =>
              rw [sanitize_list, List.map_cons, dumpsVal_list, dumpsVal_list]
              have hmap :
                  ((sanitize x0 :: xt.map sanitize).map fun x =>
                    jsonPad indent (lvl + 1) ++ dumpsVal indent (lvl + 1) x) =
                  ((x0 :: xt).map fun x =>
                    jsonPad indent (lvl + 1) ++ dumpsVal indent (lvl + 1) x) := by
                rw [show sanitize x0 :: xt.map sanitize = (x0 :: xt).map sanitize from rfl]
                rw [List.map_map]
                apply List.map_congr_left
                intro a ha
                have hb : sizeOf a ≤ n := by
                  have := sizeOf_mem_list ha
                  simp at hv
                  simp at this
                  omega
                simp only [Function.comp_apply]
                rw [ih a hb indent (lvl + 1)]
              rw [hmap]
      | dict es =>
          cases es with
          | nil => rw [sanitize_dict]; rfl
          | cons e0 et =>
              rw [sanitize_dict, List.map_cons, dumpsVal_dict, dumpsVal_dict]
              have hmap :
                  (((e0.1, sanitize e0.2) :: et.map fun kv => (kv.1, sanitize kv.2)).map
                    fun kv => jsonPad indent (lvl + 1) ++ jsonQuote kv.1 ++ ": " ++
                      dumpsVal indent (lvl + 1) kv.2) =
                  ((e0 :: et).map fun kv =>
                    jsonPad indent (lvl + 1) ++ jsonQuote kv.1 ++ ": " ++
                      dumpsVal indent (lvl + 1) kv.2) := by
                rw [show (e0.1, sanitize e0.2) :: (et.map fun kv => (kv.1, sanitize kv.2)) =
                  (e0 :: et).map (fun kv => (kv.1, sanitize kv.2)) from rfl]
                rw [List.map_map]
                apply List.map_congr_left
                intro kv hkv
                have hb : sizeOf kv.2 ≤ n := by
                  have := sizeOf_mem_dict hkv
                  simp at hv
                  simp at this
                  omega
                simp only [Function.comp_apply]
                rw [ih kv.2 hb indent (lvl + 1)]
              rw [hmap]

/-- Serialising a value equals serialising its sanitised form. -/
theorem dumps_sanitize (v : Value) (indent lvl : Nat) :
    dumpsVal indent lvl (sanitize v) = dumpsVal indent lvl v :=
  dumps_sanitize_bounded (sizeOf v) v (Nat.le_refl _) indent lvl

/-- `to_dict` reads no inspector state: its result is the same for any two
inspectors, whatever their `indent_size` and `max_depth` (bounded-size
induction step). -/
theorem to_dict_state_bounded :
    ∀ n : Nat, ∀ obj : Value, sizeOf obj ≤ n →
      ∀ s₁ s₂ : FletInspector, to_dict s₁ obj = to_dict s₂ obj := by
  intro n
  induction n with
  | zero =>
      intro v hv s₁ s₂
      exact absurd hv (by have := sizeOf_value_pos v; omega)
  | succ n ih =>
      intro v hv s₁ s₂
      cases v with
      | none => rw [to_dict_none, to_dict_none]
      | str s => rw [to_dict_str, to_dict_str]
      | int i => rw [to_dict_int, to_dict_int]
      | bool b => rw [to_dict_bool, to_dict_bool]
      | list items =>
          rw [to_dict_list, to_dict_list]
          refine congrArg Value.list (List.map_congr_left ?_)
          intro a ha
          refine ih a ?_ s₁ s₂
          have := sizeOf_mem_list ha
          simp at this hv
          omega
      | dict es =>
          rw [to_dict_dict, to_dict_dict]
          refine congrArg Value.dict (List.map_congr_left ?_)
          intro kv hkv
          have hb : sizeOf kv.2 ≤ n := by
            have := sizeOf_mem_dict hkv
            simp at this hv
            omega
          rw [ih kv.2 hb s₁ s₂]
      | obj cls mod attrs =>
          cases hf : pyStartsWith mod "flet" with
          | false =>
              rw [to_dict_nonflet s₁ cls mod attrs hf, to_dict_nonflet s₂ cls mod attrs hf]
          | true =>
              rw [to_dict_flet s₁ cls mod attrs hf, to_dict_flet s₂ cls mod attrs hf]
              refine congrArg (fun cv => Value.dict
                [("type", Value.str cls),
                 ("properties", Value.dict (toDictProps (Value.obj cls mod attrs))),
                 ("children", cv)]) ?_
              cases hgc : _get_children (Value.obj cls mod attrs) with
              | none => rfl
              | some c =>
                  have hsc : sizeOf c ≤ n := by
                    have := get_children_sizeOf hgc
                    simp at this hv
                    omega
                  cases c with
                  | list cs =>
                      simp only []
                      cases htr : pyTruthy (Value.list cs) with
                      | false => simp
                      | true =>
                          simp
                          intro a ha
                          refine ih a ?_ s₁ s₂
                          have h3 := sizeOf_mem_list ha
                          simp at h3 hsc
                          omega
                  | none => simp only []; rw [to_dict_none, to_dict_none]
                  | str s => simp only []; rw [to_dict_str, to_dict_str]
                  | int i => simp only []; rw [to_dict_int, to_dict_int]
                  | bool b => simp only []; rw [to_dict_bool, to_dict_bool]
                  | dict es2 =>
                      simp only []
                      rw [ih (Value.dict es2) hsc s₁ s₂]
                  | obj c2 m2 a2 =>
                      simp only []
                      rw [ih (Value.obj c2 m2 a2) hsc s₁ s₂]

/-- `to_dict` is independent of the inspector configuration: in particular it
consults `max_depth` nowhere. -/
theorem to_dict_state_irrel (s₁ s₂ : FletInspector) (obj : Value) :
    to_dict s₁ obj = to_dict s₂ obj :=
  to_dict_state_bounded (sizeOf obj) obj (Nat.le_refl _) s₁ s₂

/-- One iteration of the `_get_children` loop viewed as a function: the
candidate test applied to the attribute's value when present. -/
def childResolve (obj : Value) (attr : String) : Option Value :=
  match getAttr obj attr with
  | Option.some value => childCandidate value
  | Option.none => Option.none

theorem findChild_cons (obj : Value) (a : String) (rest : List String) :
    findChild obj (a :: rest) =
      match childResolve obj a with
      | Option.some r => Option.some r
      | Option.none => findChild obj rest := by
  rw [findChild]
  cases h : getAttr obj a <;> simp [childResolve, h]

/-- First-match: if no attribute before `a` resolves and `a` resolves to `r`,
the loop returns `r` — whatever attributes come after `a` in the list. -/
theorem findChild_first {obj : Value} {pre : List String} {a : String}
    {post : List String} {r : Value}
    (hpre : ∀ b ∈ pre, childResolve obj b = Option.none)
    (ha : childResolve obj a = Option.some r) :
    findChild obj (pre ++ a :: post) = Option.some r := by
  induction pre with
  | nil =>
      rw [List.nil_append, findChild_cons, ha]
  | cons b bs ih =>
      rw [List.cons_append, findChild_cons, hpre b (List.mem_cons_self b bs)]
      exact ih fun x hx => hpre x (List.mem_cons_of_mem b hx)

/-- What a successful candidate looks like: a non-empty list (returned
verbatim) or a single Flet widget. -/
theorem childCandidate_classify {v c : Value} (h : childCandidate v = Option.some c) :
    (∃ l, c = Value.list l ∧ 0 < l.length) ∨ isFlet c = true := by
  have he := childCandidate_some h
  subst he
  cases c with
  | none => simp [childCandidate] at h
  | str s => simp [childCandidate] at h
  | int n => simp [childCandidate] at h
  | bool b => simp [childCandidate] at h
  | list l =>
      simp only [childCandidate] at h
      split at h
      · exact Or.inl ⟨l, rfl, by omega⟩
      · simp at h
  | dict es =>
      simp only [childCandidate] at h
      split at h
      · next hf => exact Or.inr hf
      · simp at h
  | obj cls mod attrs =>
      simp only [childCandidate] at h
      split at h
      · next hf => exact Or.inr hf
      · simp at h

/-- A Flet widget always passes the candidate test, as itself. -/
theorem childCandidate_flet {v : Value} (h : isFlet v = true) :
    childCandidate v = Option.some v := by
  cases v with
  | obj cls mod attrs => simp [childCandidate, h]
  | none => simp [isFlet] at h
  | str s => simp [isFlet] at h
  | int n => simp [isFlet] at h
  | bool b => simp [isFlet] at h
  | list l => simp [isFlet] at h
  | dict es => simp [isFlet] at h

/-- The Bool guard of the property loops, as the spec words it. -/
theorem nonNullNonEmptyStr_iff (v : Value) :
    nonNullNonEmptyStr v = true ↔ v ≠ Value.none ∧ v ≠ Value.str "" := by
  cases v <;> simp [nonNullNonEmptyStr]

/-- The text-side property list is the structured-side property list with
each value truncated: same names, same order. -/
theorem controlProps_eq_map (obj : Value) :
    controlPropsList obj = (toDictProps obj).map fun kv => (kv.1, truncateProp kv.2) := by
  unfold controlPropsList toDictProps
  rw [List.map_filterMap]
  apply List.filterMap_congr
  intro p _
  cases h : getAttr obj p with
  | none => rfl
  | some v =>
      by_cases hnn : nonNullNonEmptyStr v = true
      · simp [hnn]
      · simp [hnn]

/-- Membership in the structured-side property list. -/
theorem mem_toDictProps (obj : Value) (p : String) (v : Value) :
    (p, v) ∈ toDictProps obj ↔
      p ∈ common_props ∧ getAttr obj p = Option.some v ∧
        v ≠ Value.none ∧ v ≠ Value.str "" := by
  unfold toDictProps
  rw [List.mem_filterMap]
  constructor
  · rintro ⟨a, ha, hfa⟩
    cases hga : getAttr obj a with
    | none => simp [hga] at hfa
    | some w =>
        simp only [hga] at hfa
        split at hfa
        · next hnn =>
            simp only [Option.some.injEq, Prod.mk.injEq] at hfa
            obtain ⟨rfl, rfl⟩ := hfa
            exact ⟨ha, hga, (nonNullNonEmptyStr_iff w).mp hnn⟩
        · simp at hfa
  · rintro ⟨hp, hga, hne⟩
    refine ⟨p, hp, ?_⟩
    rw [hga]
    simp only [(nonNullNonEmptyStr_iff v).mpr hne, if_true]

/-- Text-side membership from structured-side membership: the same property
appears, with its value truncated. -/
theorem controlProps_of_toDictProps {obj : Value} {p : String} {v : Value}
    (h : (p, v) ∈ toDictProps obj) :
    (p, truncateProp v) ∈ controlPropsList obj := by
  rw [controlProps_eq_map]
  exact List.mem_map.mpr ⟨(p, v), h, rfl⟩

/-- Inversion for `_get_special_children`: every emitted entry is an
allowlisted special slot whose value is the widget bound to that attribute. -/
theorem mem_special_children {obj : Value} {nw : String × Value}
    (h : nw ∈ _get_special_children obj) :
    nw.1 ∈ special_attrs ∧ getAttr obj nw.1 = Option.some nw.2 ∧ isFlet nw.2 = true := by
  unfold _get_special_children at h
  obtain ⟨a, ha, hfa⟩ := List.mem_filterMap.mp h
  cases hga : getAttr obj a with
  | none => simp [hga] at hfa
  | some w =>
      simp only [hga] at hfa
      split at hfa
      · next hcond =>
          simp only [Option.some.injEq] at hfa
          subst hfa
          have h2 := (Bool.and_eq_true _ _).mp hcond
          exact ⟨ha, hga, h2.2⟩
      · simp at hfa

/-- The names kept by a name-preserving `filterMap` form a sublist of the
scanned list: output order is allowlist order. -/
theorem filterMap_fst_sublist {β : Type} (f : String → Option (String × β))
    (hf : ∀ a b, f a = Option.some b → b.1 = a) :
    ∀ l : List String, ((l.filterMap f).map Prod.fst).Sublist l := by
  intro l
  induction l with
  | nil => simp
  | cons a t ih =>
      cases hfa : f a with
      | none =>
          rw [List.filterMap_cons_none hfa]
          exact ih.cons a
      | some b =>
          rw [List.filterMap_cons_some hfa, List.map_cons, hf a b hfa]
          exact ih.cons₂ a

/-- The structured-side property names, in order, form a sublist of the
allowlist. -/
theorem toDictProps_names_sublist (obj : Value) :
    ((toDictProps obj).map Prod.fst).Sublist common_props := by
  unfold toDictProps
  apply filterMap_fst_sublist
  intro a b hb
  cases hga : getAttr obj a with
  | none => simp [hga] at hb
  | some w =>
      simp only [hga] at hb
      split at hb
      · simp only [Option.some.injEq] at hb
        subst hb
        rfl
      · simp at hb

/-- Both outputs list the same property names in the same order. -/
theorem controlProps_names_eq (obj : Value) :
    (controlPropsList obj).map Prod.fst = (toDictProps obj).map Prod.fst := by
  rw [controlProps_eq_map, List.map_map]
  apply List.map_congr_left
  intro kv _
  rfl

/-- An attribute that is absent, `None`, an empty list or an empty string —
the shapes the spec calls "absent or empty". -/
def absentOrEmpty (obj : Value) (attr : String) : Prop :=
  getAttr obj attr = Option.none ∨ getAttr obj attr = Option.some Value.none ∨
    getAttr obj attr = Option.some (Value.list []) ∨
    getAttr obj attr = Option.some (Value.str "")

/-- An absent-or-empty attribute never resolves a child. -/
theorem absentOrEmpty_resolve {obj : Value} {attr : String}
    (h : absentOrEmpty obj attr) : childResolve obj attr = Option.none := by
  rcases h with h | h | h | h <;> simp [childResolve, h, childCandidate]

theorem pyTruthy_list_pos {l : List Value} (h : 0 < l.length) :
    pyTruthy (Value.list l) = true := by
  cases l with
  | nil => simp at h
  | cons x xs => simp [pyTruthy]

theorem pyTruthy_flet {v : Value} (h : isFlet v = true) : pyTruthy v = true := by
  cases v with
  | obj cls mod attrs => rfl
  | none => simp [isFlet] at h
  | str s => simp [isFlet] at h
  | int n => simp [isFlet] at h
  | bool b => simp [isFlet] at h
  | list l => simp [isFlet] at h
  | dict es => simp [isFlet] at h

/-- C5: ordinary-child resolution consults `child_attrs` in its fixed order
and stops at the first candidate that is present and non-empty: when no
candidate before `a` resolves and `a`'s value passes the candidate test,
`_get_children` returns that attribute's own value — a non-empty list
verbatim, or a single Flet widget as the sole ordinary child — and the
result is the same whatever candidates follow `a`, so later candidates are
never consulted.  Instantiated at a widget with a populated 2-element
`controls` and a populated `content`, this yields exactly the 2 `controls`
children (see the witness). -/
theorem C5_first_match (obj : Value) (pre : List String) (a : String)
    (post : List String) (r : Value)
    (hsplit : child_attrs = pre ++ a :: post)
    (hpre : ∀ b ∈ pre, childResolve obj b = Option.none)
    (ha : childResolve obj a = Option.some r) :
    _get_children obj = Option.some r ∧
    getAttr obj a = Option.some r ∧
    ((∃ l, r = Value.list l ∧ 0 < l.length) ∨ isFlet r = true) ∧
    (∀ post2 : List String, findChild obj (pre ++ a :: post2) = Option.some r) := by
  have hgen : ∀ post2 : List String, findChild obj (pre ++ a :: post2) = Option.some r :=
    fun post2 => findChild_first hpre ha
  have hres : ∃ v, getAttr obj a = Option.some v ∧ childCandidate v = Option.some r := by
    unfold childResolve at ha
    cases hga : getAttr obj a with
    | none => simp only [hga] at ha; cases ha
    | some v => simp only [hga] at ha; exact ⟨v, rfl, ha⟩
  obtain ⟨v, hga, hcc⟩ := hres
  have hrv := childCandidate_some hcc
  rw [← hrv] at hga hcc
  refine ⟨?_, hga, childCandidate_classify hcc, hgen⟩
  show findChild obj child_attrs = Option.some r
  rw [hsplit]
  exact hgen post

/-- C5 witness: the first-match policy at a concrete `Row` carrying both a
populated `controls` list of two widgets and a populated `content` widget:
exactly the two `controls` children are resolved. -/
theorem C5_witness :
    _get_children (Value.obj "Row" "flet.row"
      [("controls", Value.list
         [Value.obj "Text1" "flet.text" [], Value.obj "Text2" "flet.text" []]),
       ("content", Value.obj "Button" "flet.button" [])]) =
      Option.some (Value.list
        [Value.obj "Text1" "flet.text" [], Value.obj "Text2" "flet.text" []]) ∧
    getAttr (Value.obj "Row" "flet.row"
      [("controls", Value.list
         [Value.obj "Text1" "flet.text" [], Value.obj "Text2" "flet.text" []]),
       ("content", Value.obj "Button" "flet.button" [])]) "controls" =
      Option.some (Value.list
        [Value.obj "Text1" "flet.text" [], Value.obj "Text2" "flet.text" []]) ∧
    ((∃ l, Value.list
        [Value.obj "Text1" "flet.text" [], Value.obj "Text2" "flet.text" []] =
          Value.list l ∧ 0 < l.length) ∨
      isFlet (Value.list
        [Value.obj "Text1" "flet.text" [], Value.obj "Text2" "flet.text" []]) = true) ∧
    (∀ post2 : List String, findChild (Value.obj "Row" "flet.row"
      [("controls", Value.list
         [Value.obj "Text1" "flet.text" [], Value.obj "Text2" "flet.text" []]),
       ("content", Value.obj "Button" "flet.button" [])]) ([] ++ "controls" :: post2) =
      Option.some (Value.list
        [Value.obj "Text1" "flet.text" [], Value.obj "Text2" "flet.text" []])) :=
  C5_first_match
    (Value.obj "Row" "flet.row"
      [("controls", Value.list
         [Value.obj "Text1" "flet.text" [], Value.obj "Text2" "flet.text" []]),
       ("content", Value.obj "Button" "flet.button" [])])
    [] "controls"
    ["content", "actions", "tabs", "items", "leading", "title", "trailing", "options"]
    (Value.list [Value.obj "Text1" "flet.text" [], Value.obj "Text2" "flet.text" []])
    rfl (fun b hb => nomatch hb) rfl

/-- C6: `FletInspector.__init__` performs no validation whatever: a negative
`max_depth` and a zero `indent_size` are stored silently, and in general
every argument pair is accepted unchanged — no configuration error exists in
the code. -/
theorem C6_init_accepts_bad_config :
    FletInspector.init 0 (-1) =
      { indent_size := 0, max_depth := -1, current_depth := 0 } ∧
    (∀ indent_size max_depth : Int, FletInspector.init indent_size max_depth =
      { indent_size := indent_size, max_depth := max_depth, current_depth := 0 }) :=
  ⟨rfl, fun _ _ => rfl⟩

/-- C7: a property name appears in the extracted properties (of the text
side and of the structured side, which list exactly the same names in the
same order) iff it is allowlisted, the widget carries it, and its value is
neither `None` nor the empty string; the names appear in the allowlist's
fixed order (a sublist of `common_props`), and a name not on the allowlist
never appears. -/
theorem C7_allowlist_fidelity (obj : Value) (p : String) :
    ((controlPropsList obj).map Prod.fst).Sublist common_props ∧
    (controlPropsList obj).map Prod.fst = (toDictProps obj).map Prod.fst ∧
    (p ∈ (toDictProps obj).map Prod.fst ↔
      p ∈ common_props ∧ ∃ v, getAttr obj p = Option.some v ∧
        v ≠ Value.none ∧ v ≠ Value.str "") := by
  refine ⟨?_, controlProps_names_eq obj, ?_, ?_⟩
  · rw [controlProps_names_eq obj]
    exact toDictProps_names_sublist obj
  · intro h
    obtain ⟨kv, hkv, hfst⟩ := List.mem_map.mp h
    obtain ⟨hp, hga, hne⟩ := (mem_toDictProps obj kv.1 kv.2).mp hkv
    subst hfst
    exact ⟨hp, kv.2, hga, hne⟩
  · rintro ⟨hp, v, hga, hne⟩
    exact List.mem_map.mpr ⟨(p, v), (mem_toDictProps obj p v).mpr ⟨hp, hga, hne⟩, rfl⟩

/-- C8 counterexample: the same widget object bound both to the special slot
`appbar` and to the ordinary-child attribute `content` is emitted by the
special-children resolver AND again by the ordinary-children resolver — the
two result sets are not disjoint as sets of widgets. -/
theorem C8_counterexample :
    _get_special_children (Value.obj "Page" "flet.page"
      [("appbar", Value.obj "AppBar" "flet.appbar" []),
       ("content", Value.obj "AppBar" "flet.appbar" [])]) =
      [("appbar", Value.obj "AppBar" "flet.appbar" [])] ∧
    _get_children (Value.obj "Page" "flet.page"
      [("appbar", Value.obj "AppBar" "flet.appbar" []),
       ("content", Value.obj "AppBar" "flet.appbar" [])]) =
      Option.some (Value.obj "AppBar" "flet.appbar" []) :=
  ⟨rfl, rfl⟩

/-- C8 as amended: disjointness holds at the level of attribute names, by
construction: the special-slot allowlist and the ordinary-child allowlist
share no name, special children are read only from special-slot attributes,
and ordinary children are resolved only from ordinary-child attributes.
Hence a widget reachable only through a special slot is never emitted again
as an ordinary child; only a caller that aliases the same widget under both
kinds of attribute (the counterexample) sees it twice. -/
theorem C8_amended_disjointness :
    (∀ a ∈ special_attrs, a ∉ child_attrs) ∧
    (∀ (obj : Value) (nw : String × Value), nw ∈ _get_special_children obj →
      nw.1 ∈ special_attrs ∧ getAttr obj nw.1 = Option.some nw.2) ∧
    (∀ (obj r : Value), _get_children obj = Option.some r →
      ∃ attr ∈ child_attrs, getAttr obj attr = Option.some r) := by
  refine ⟨by decide, ?_, ?_⟩
  · intro obj nw h
    have h2 := mem_special_children h
    exact ⟨h2.1, h2.2.1⟩
  · intro obj r h
    obtain ⟨attr, hmem, h1, _⟩ := get_children_some h
    exact ⟨attr, hmem, h1⟩

/-- C9: rendering is deterministic.  Re-running `inspect` on the unmodified
tree with the state left behind by a first run produces the identical
string (the only state mutation, resetting `current_depth`, is idempotent),
and `to_dict` after an `inspect` run equals `to_dict` before it — `to_dict`
reads no inspector state at all, so property order and child order are
stable across runs. -/
theorem C9_determinism (self : FletInspector) (obj : Value) (show_properties : Bool) :
    (inspect ((inspect self obj show_properties).2) obj show_properties).1 =
      (inspect self obj show_properties).1 ∧
    to_dict ((inspect self obj show_properties).2) obj = to_dict self obj :=
  ⟨rfl, to_dict_state_irrel _ _ obj⟩

/-- C10: `title` is on both the property allowlist and the ordinary-child
allowlist.  For a widget whose `title` holds a Flet widget while all earlier
child candidates (`controls`, `content`, `actions`, `tabs`, `items`,
`leading`) are absent or empty, the very same widget is surfaced twice: once
among the extracted properties (text and structured side) and once as the
widget's sole ordinary child. -/
theorem C10_title_twice (cls mod : String) (attrs : List (String × Value)) (w : Value)
    (hm : pyStartsWith mod "flet" = true)
    (ht : getAttr (Value.obj cls mod attrs) "title" = Option.some w)
    (hw : isFlet w = true)
    (hpre : ∀ b ∈ ["controls", "content", "actions", "tabs", "items", "leading"],
      absentOrEmpty (Value.obj cls mod attrs) b) :
    ("title" ∈ common_props ∧ "title" ∈ child_attrs) ∧
    ("title", w) ∈ toDictProps (Value.obj cls mod attrs) ∧
    ("title", w) ∈ controlPropsList (Value.obj cls mod attrs) ∧
    _get_children (Value.obj cls mod attrs) = Option.some w := by
  have hwne : w ≠ Value.none ∧ w ≠ Value.str "" := by
    cases w <;> simp [isFlet] at hw <;> simp
  have hmem : ("title", w) ∈ toDictProps (Value.obj cls mod attrs) :=
    (mem_toDictProps _ _ _).mpr ⟨by decide, ht, hwne⟩
  refine ⟨⟨by decide, by decide⟩, hmem, ?_, ?_⟩
  · have h2 := controlProps_of_toDictProps hmem
    have htr : truncateProp w = w := by
      cases w <;> first | rfl | simp [isFlet] at hw
    rw [htr] at h2
    exact h2
  · show findChild (Value.obj cls mod attrs) child_attrs = Option.some w
    have hsplit : child_attrs =
        ["controls", "content", "actions", "tabs", "items", "leading"] ++
          "title" :: ["trailing", "options"] := rfl
    rw [hsplit]
    apply findChild_first
    · intro b hb
      exact absentOrEmpty_resolve (hpre b hb)
    · show childResolve (Value.obj cls mod attrs) "title" = Option.some w
      unfold childResolve
      simp only [ht]
      exact childCandidate_flet hw

/-- C10 witness: an `AppBar` whose only attribute is a `title` widget: the
`Text` widget appears among the extracted properties and as the ordinary
child. -/
theorem C10_witness :
    ("title" ∈ common_props ∧ "title" ∈ child_attrs) ∧
    ("title", Value.obj "Text" "flet.text" []) ∈
      toDictProps (Value.obj "AppBar" "flet.appbar"
        [("title", Value.obj "Text" "flet.text" [])]) ∧
    ("title", Value.obj "Text" "flet.text" []) ∈
      controlPropsList (Value.obj "AppBar" "flet.appbar"
        [("title", Value.obj "Text" "flet.text" [])]) ∧
    _get_children (Value.obj "AppBar" "flet.appbar"
      [("title", Value.obj "Text" "flet.text" [])]) =
      Option.some (Value.obj "Text" "flet.text" []) :=
  C10_title_twice "AppBar" "flet.appbar" [("title", Value.obj "Text" "flet.text" [])]
    (Value.obj "Text" "flet.text" []) (by decide) rfl (by decide)
    (by
      intro b hb
      fin_cases hb <;> exact Or.inl rfl)

/-- C4: a string-valued allowlisted property longer than 30 characters is
truncated for the text rendering — the extracted text-side property value is
the first 30 characters followed by `"..."`, and the formatted text entry
prints exactly that — while the structured/JSON side keeps the full
untruncated string. -/
theorem C4_truncation (obj : Value) (p s : String)
    (hp : p ∈ common_props)
    (hs : getAttr obj p = Option.some (Value.str s))
    (hlen : 30 < s.length) :
    (p, Value.str (s.take 30 ++ "...")) ∈ controlPropsList obj ∧
    (p ++ "='" ++ (s.take 30 ++ "...") ++ "'") ∈ (controlPropsList obj).map formatProp ∧
    (p, Value.str s) ∈ toDictProps obj := by
  have hne : Value.str s ≠ Value.none ∧ Value.str s ≠ Value.str "" := by
    constructor
    · simp
    · intro hcon
      simp only [Value.str.injEq] at hcon
      subst hcon
      simp at hlen
  have hmem : (p, Value.str s) ∈ toDictProps obj :=
    (mem_toDictProps obj p _).mpr ⟨hp, hs, hne⟩
  have hctl := controlProps_of_toDictProps hmem
  have htr : truncateProp (Value.str s) = Value.str (s.take 30 ++ "...") := by
    simp [truncateProp, hlen]
  rw [htr] at hctl
  refine ⟨hctl, ?_, hmem⟩
  have hfmt : formatProp (p, Value.str (s.take 30 ++ "...")) =
      p ++ "='" ++ (s.take 30 ++ "...") ++ "'" := rfl
  rw [← hfmt]
  exact List.mem_map.mpr ⟨_, hctl, rfl⟩

/-- C4 witness: a `text` property of 40 characters: the text side extracts
the first 30 characters plus the ellipsis, the structured side the full
string. -/
theorem C4_witness :
    ("text", Value.str ("0123456789012345678901234567890123456789".take 30 ++ "...")) ∈
      controlPropsList (Value.obj "Text" "flet.text"
        [("text", Value.str "0123456789012345678901234567890123456789")]) ∧
    ("text" ++ "='" ++ ("0123456789012345678901234567890123456789".take 30 ++ "...") ++ "'") ∈
      (controlPropsList (Value.obj "Text" "flet.text"
        [("text", Value.str "0123456789012345678901234567890123456789")])).map formatProp ∧
    ("text", Value.str "0123456789012345678901234567890123456789") ∈
      toDictProps (Value.obj "Text" "flet.text"
        [("text", Value.str "0123456789012345678901234567890123456789")]) :=
  C4_truncation
    (Value.obj "Text" "flet.text"
      [("text", Value.str "0123456789012345678901234567890123456789")])
    "text" "0123456789012345678901234567890123456789"
    (by decide) rfl (by decide)

/-- C3 counterexample: a widget with no ordinary children at all still gets
a `children` key — bound to `None` — because `to_dict` initialises the
result dict with `'children': None` and only overwrites it when children
are found.  The key is neither absent nor an empty collection. -/
theorem C3_counterexample :
    to_dict (FletInspector.init 2 10) (Value.obj "Text" "flet.text" []) =
      Value.dict [("type", Value.str "Text"), ("properties", Value.dict []),
        ("children", Value.none)] ∧
    ("children", Value.none) ∈
      [("type", Value.str "Text"), ("properties", Value.dict []),
        ("children", Value.none)] := by
  constructor
  · rw [to_dict_flet _ _ _ _ (by decide)]
    rw [show _get_children (Value.obj "Text" "flet.text" []) = Option.none from rfl]
    rfl
  · simp

/-- C3 as amended: `to_dict` renders a widget as a mapping with exactly the
keys `type`, `properties` and `children`, in that order; `children` is
always present — `None` when no ordinary children resolve, the sequence of
recursively-structured children when a list resolves, and when a single
widget resolves, that single structured child directly under `children`,
not wrapped in a sequence. -/
theorem C3_amended_children_key (self : FletInspector) (cls mod : String)
    (attrs : List (String × Value)) (hm : pyStartsWith mod "flet" = true) :
    (_get_children (Value.obj cls mod attrs) = Option.none →
      to_dict self (Value.obj cls mod attrs) =
        Value.dict [("type", Value.str cls),
          ("properties", Value.dict (toDictProps (Value.obj cls mod attrs))),
          ("children", Value.none)]) ∧
    (∀ cs : List Value,
      _get_children (Value.obj cls mod attrs) = Option.some (Value.list cs) →
      to_dict self (Value.obj cls mod attrs) =
        Value.dict [("type", Value.str cls),
          ("properties", Value.dict (toDictProps (Value.obj cls mod attrs))),
          ("children", Value.list (cs.map (to_dict self)))]) ∧
    (∀ c : Value, _get_children (Value.obj cls mod attrs) = Option.some c →
      (∀ cs : List Value, c ≠ Value.list cs) →
      to_dict self (Value.obj cls mod attrs) =
        Value.dict [("type", Value.str cls),
          ("properties", Value.dict (toDictProps (Value.obj cls mod attrs))),
          ("children", to_dict self c)]) := by
  refine ⟨?_, ?_, ?_⟩
  · intro hgc
    rw [to_dict_flet self cls mod attrs hm, hgc]
  · intro cs hgc
    obtain ⟨attr, _, _, hcand⟩ := get_children_some hgc
    have hpos : 0 < cs.length := by
      rcases childCandidate_classify hcand with ⟨l, hl, hlen⟩ | hf
      · simp only [Value.list.injEq] at hl
        subst hl
        exact hlen
      · simp [isFlet] at hf
    rw [to_dict_flet self cls mod attrs hm, hgc]
    simp [pyTruthy_list_pos hpos]
  · intro c hgc hnl
    obtain ⟨attr, _, _, hcand⟩ := get_children_some hgc
    have hf : isFlet c = true := by
      rcases childCandidate_classify hcand with ⟨l, hl, _⟩ | hf
      · exact absurd hl (hnl l)
      · exact hf
    rw [to_dict_flet self cls mod attrs hm, hgc]
    have htr := pyTruthy_flet hf
    cases c with
    | list l => exact absurd rfl (hnl l)
    | none => simp [htr]
    | str s => simp [htr]
    | int n => simp [htr]
    | bool b => simp [htr]
    | dict es => simp [htr]
    | obj c2 m2 a2 => simp [htr]

/-- C3 witness: a container with a single `content` child: the structured
child is placed directly under `children`, not wrapped in a sequence. -/
theorem C3_witness :
    to_dict (FletInspector.init 2 10) (Value.obj "Container" "flet.container"
      [("content", Value.obj "Text" "flet.text" [])]) =
      Value.dict [("type", Value.str "Container"),
        ("properties", Value.dict (toDictProps (Value.obj "Container" "flet.container"
          [("content", Value.obj "Text" "flet.text" [])]))),
        ("children", to_dict (FletInspector.init 2 10) (Value.obj "Text" "flet.text" []))] :=
  (C3_amended_children_key (FletInspector.init 2 10) "Container" "flet.container"
    [("content", Value.obj "Text" "flet.text" [])] (by decide)).2.2
    (Value.obj "Text" "flet.text" []) rfl (fun cs h => Value.noConfusion h)

/-- C1 as amended: only the text renderer bounds recursion: any
`_inspect_recursive` call whose depth exceeds `max_depth` returns the
truncation placeholder without recursing further, for every input value —
including one whose child attributes chain arbitrarily (the model's
termination argument is exactly the depth guard).  `to_dict` (and hence
`flet_to_json`) applies no depth bound at all: its output is identical
whatever `max_depth` is configured, and it converts the full structure,
never emitting the placeholder (see the counterexample). -/
theorem C1_amended_depth_bound (self s₁ s₂ : FletInspector) (obj : Value)
    (show_properties : Bool) (depth : Nat)
    (h : (depth : Int) > self.max_depth) :
    _inspect_recursive self obj show_properties depth = "... (max depth reached)" ∧
    to_dict s₁ obj = to_dict s₂ obj :=
  ⟨inspect_rec_cutoff self obj show_properties depth h, to_dict_state_irrel s₁ s₂ obj⟩

/-- C1 witness: with `max_depth = 1`, a call at depth 2 yields the
placeholder for a concrete value, and `to_dict` gives the same output under
`max_depth = 1` and `max_depth = 10`. -/
theorem C1_witness :
    _inspect_recursive (FletInspector.init 2 1) Value.none true 2 =
      "... (max depth reached)" ∧
    to_dict (FletInspector.init 2 1) Value.none =
      to_dict (FletInspector.init 2 10) Value.none :=
  C1_amended_depth_bound (FletInspector.init 2 1) (FletInspector.init 2 1)
    (FletInspector.init 2 10) Value.none true 2 (by decide)

/-- C1 counterexample: a widget chain three levels deep under an inspector
with `max_depth = 1`.  `to_dict` converts the full structure — the level-3
widget appears in the output — and the truncation placeholder occurs
nowhere in it, while the text renderer's recursion at depth 2 on the
grandchild does return the placeholder: the claimed `maxDepth` bound and
placeholder hold only for the text renderer, not for `to_dict` or
`flet_to_json`. -/
theorem C1_counterexample :
    to_dict (FletInspector.init 2 1) (Value.obj "A" "flet.a" [("content",
      Value.obj "B" "flet.b" [("content", Value.obj "C" "flet.c" [])])]) =
      Value.dict [("type", Value.str "A"), ("properties", Value.dict []),
        ("children", Value.dict [("type", Value.str "B"), ("properties", Value.dict []),
          ("children", Value.dict [("type", Value.str "C"), ("properties", Value.dict []),
            ("children", Value.none)])])] ∧
    containsStrB "... (max depth reached)"
      (Value.dict [("type", Value.str "A"), ("properties", Value.dict []),
        ("children", Value.dict [("type", Value.str "B"), ("properties", Value.dict []),
          ("children", Value.dict [("type", Value.str "C"), ("properties", Value.dict []),
            ("children", Value.none)])])]) = false ∧
    _inspect_recursive (FletInspector.init 2 1) (Value.obj "C" "flet.c" []) true 2 =
      "... (max depth reached)" := by
  refine ⟨?_, ?_, ?_⟩
  · rw [to_dict_flet _ _ _ _ (by decide)]
    rw [show _get_children (Value.obj "A" "flet.a" [("content",
        Value.obj "B" "flet.b" [("content",
          Value.obj "C" "flet.c" [])])]) = Option.some (Value.obj "B" "flet.b" [("content",
        Value.obj "C" "flet.c" [])]) from rfl]
    dsimp only
    rw [to_dict_flet _ _ _ _ (by decide)]
    rw [show _get_children (Value.obj "B" "flet.b" [("content",
        Value.obj "C" "flet.c" [])]) = Option.some (Value.obj "C" "flet.c" []) from rfl]
    dsimp only
    rw [to_dict_flet _ _ _ _ (by decide)]
    rw [show _get_children (Value.obj "C" "flet.c" []) = Option.none from rfl]
    rfl
  · simp [containsStrB_dict, containsStrB_str, containsStrB_none, List.any_cons,
      List.any_nil]
  · exact inspect_rec_cutoff (FletInspector.init 2 1) (Value.obj "C" "flet.c" []) true 2
      (by decide)

/-- C2 counterexample: `to_dict` itself can return a raw object reference:
an allowlisted property whose value is a non-Flet object is stored raw under
`properties`, not serialised to its textual form, and the resulting value is
not JSON-compatible. -/
theorem C2_counterexample :
    to_dict (FletInspector.init 2 10) (Value.obj "Container" "flet.container"
      [("data", Value.obj "Payload" "mymod" [])]) =
      Value.dict [("type", Value.str "Container"),
        ("properties", Value.dict [("data", Value.obj "Payload" "mymod" [])]),
        ("children", Value.none)] ∧
    jsonCompatibleB (to_dict (FletInspector.init 2 10) (Value.obj "Container"
      "flet.container" [("data", Value.obj "Payload" "mymod" [])])) = false := by
  have h1 : to_dict (FletInspector.init 2 10) (Value.obj "Container" "flet.container"
      [("data", Value.obj "Payload" "mymod" [])]) =
      Value.dict [("type", Value.str "Container"),
        ("properties", Value.dict [("data", Value.obj "Payload" "mymod" [])]),
        ("children", Value.none)] := by
    rw [to_dict_flet _ _ _ _ (by decide)]
    rw [show _get_children (Value.obj "Container" "flet.container"
      [("data", Value.obj "Payload" "mymod" [])]) = Option.none from rfl]
    rfl
  refine ⟨h1, ?_⟩
  rw [h1]
  simp [jsonCompatibleB_dict, jsonCompatibleB_str, jsonCompatibleB_obj,
    jsonCompatibleB_none, List.all_cons, List.all_nil]

/-- C2 as amended: it is the JSON converter, not `to_dict`, that serialises
non-JSON-representable values via their default textual form:
`flet_to_json`'s output equals the JSON rendering of the sanitised
structure, in which every opaque object reference has been replaced by
`str(value)` (`json.dumps`'s `default=str`), and that sanitised structure is
JSON-compatible — mappings, sequences and scalars only. -/
theorem C2_amended_default_str (obj : Value) (indent : Nat) :
    flet_to_json obj indent =
      dumpsVal indent 0 (sanitize (to_dict (FletInspector.init 2 10) obj)) ∧
    jsonCompatibleB (sanitize (to_dict (FletInspector.init 2 10) obj)) = true :=
  ⟨(dumps_sanitize (to_dict (FletInspector.init 2 10) obj) indent 0).symm,
   sanitize_jsonCompatible (to_dict (FletInspector.init 2 10) obj)⟩
